import Mathlib

/-!
Shallow embedding of `dtek_fact_parser.py`.

Strings are modelled as `List Char` (Python `str`), dictionaries as
association lists in insertion order (`setA` replaces the value of an
existing key in place and appends a fresh key at the end, matching
Python `d[k] = v`).  The network fetch, `json.loads`, `datetime.now`
and the local-time `datetime.fromtimestamp(..).strftime("%Y-%m-%d")`
conversion are external effects and enter as explicit parameters
(`status`/`body`, `decode`, `now`, `dateOf`).
-/

/-- The character `{`. -/
def lbrace : Char := '\x7b'

/-- The character `}`. -/
def rbrace : Char := '\x7d'

/-- `startsW l pat` : `pat` is an initial segment of `l`. -/
def startsW : List Char → List Char → Bool
  | _, [] => true
  | [], _ :: _ => false
  | c :: cs, p :: ps => c = p && startsW cs ps

/-- Helper for `findSub`: index of the first occurrence, counting from `i`. -/
def findSubAux : List Char → List Char → Nat → Option Nat
  | [], pat, i => if startsW [] pat then some i else none
  | c :: cs, pat, i =>
    if startsW (c :: cs) pat then some i else findSubAux cs pat (i + 1)

/-- Python `text.find(pat)`: index of the first occurrence of `pat`, or `none`
(Python returns `-1`). -/
def findSub (l pat : List Char) : Option Nat := findSubAux l pat 0

/-- Helper for `findCharFrom`. -/
def findCharAux : List Char → Char → Nat → Option Nat
  | [], _, _ => none
  | x :: xs, c, i => if x = c then some i else findCharAux xs c (i + 1)

/-- Python `text.find(c, start)`: index of the first occurrence of the
character `c` at position `start` or later. -/
def findCharFrom (l : List Char) (c : Char) (start : Nat) : Option Nat :=
  findCharAux (l.drop start) c start

/-- Python `pat in text` (substring containment). -/
def containsSub (l pat : List Char) : Bool := (findSub l pat).isSome

/-- The brace-counting loop of `parse_schedule` (lines 61-70 / 80-88):
`braceLoop rest count i` scans `rest` (the suffix of the page starting at
index `i`), increments `count` on `{`, decrements on `}`, and returns
`some (i+1)` at the first `}` that brings the counter to zero (Python sets
`json_end = i + 1` and breaks); `none` when the loop runs off the end. -/
def braceLoop : List Char → Int → Nat → Option Nat
  | [], _, _ => none
  | c :: rest, count, i =>
    if c = lbrace then braceLoop rest (count + 1) (i + 1)
    else if c = rbrace then
      if count - 1 = 0 then some (i + 1) else braceLoop rest (count - 1) (i + 1)
    else braceLoop rest count (i + 1)

/-- Signed brace depth contribution of one character. -/
def depthDelta (c : Char) : Int :=
  if c = lbrace then 1 else if c = rbrace then -1 else 0

/-- Signed brace depth of a string: number of `{` minus number of `}`. -/
def depthOf (s : List Char) : Int := (s.map depthDelta).sum

/-- A balanced brace object: starts with `{`, total depth zero, and every
proper nonempty initial segment has positive depth. -/
def BalancedCore (s : List Char) : Prop :=
  s.head? = some lbrace ∧ depthOf s = 0 ∧
    ∀ n, n < s.length → 0 < n → 0 < depthOf (s.take n)

instance (s : List Char) : Decidable (BalancedCore s) := by
  unfold BalancedCore
  infer_instance

/-- Marker for the required fact block: `DisconSchedule.fact = {`. -/
def markerFact : List Char := "DisconSchedule.fact = \x7b".toList

/-- The fact marker without its final `{`. -/
def markerHead : List Char := "DisconSchedule.fact = ".toList

/-- Marker for the optional preset block: `DisconSchedule.preset = {`. -/
def markerPreset : List Char := "DisconSchedule.preset = \x7b".toList

/-- Sentinel substring whose absence indicates a protection page. -/
def sentinel : List Char := "DisconSchedule".toList

/-- Error taxonomy of the pipeline: the distinct `raise` sites of the source
plus a JSON decode failure. -/
inductive RunError where
  | httpError : Nat → RunError
  | protectionDetected : RunError
  | markerNotFound : RunError
  | decodeError : RunError
deriving DecidableEq, Repr

/-- Extraction of the required fact block (`parse_schedule`, lines 53-72):
find the marker (failing with `markerNotFound` when absent, line 55), find
the first `{` at or after it, run the brace loop, and slice
`html[json_start:json_end]`.  When the loop never breaks, `json_end` keeps
its initial value `json_start` and the slice is empty; when no `{` is found
(unreachable, the marker itself contains `{`), Python's `find` returns `-1`
and the slices `html[-1:]` / `html[-1:-1]` likewise produce the empty
string. -/
def extract_fact (html : List Char) : Except RunError (List Char) :=
  match findSub html markerFact with
  | none => .error .markerNotFound
  | some fact_start =>
    match findCharFrom html lbrace fact_start with
    | none => .ok []
    | some json_start =>
      let json_end := (braceLoop (html.drop json_start) 0 json_start).getD json_start
      .ok ((html.drop json_start).take (json_end - json_start))

/-- Extraction of the optional preset block (`parse_schedule`, lines 76-88):
`some substring` exactly when the marker is present and the brace loop
breaks with counter zero; in every other case `preset_data` keeps its
initial value `{}` and we return `none`. -/
def extract_preset (html : List Char) : Option (List Char) :=
  match findSub html markerPreset with
  | none => none
  | some preset_start =>
    match findCharFrom html lbrace preset_start with
    | none => none
    | some json_start =>
      (braceLoop (html.drop json_start) 0 json_start).map
        (fun e => (html.drop json_start).take (e - json_start))

/-- Association list update, Python `d[k] = v`: replaces the value of an
existing key in place, otherwise appends the new pair at the end
(insertion order). -/
def setA {α : Type} : List (List Char × α) → List Char → α → List (List Char × α)
  | [], k, v => [(k, v)]
  | (k', v') :: rest, k, v =>
    if k' = k then (k, v) :: rest else (k', v') :: setA rest k v

/-- Association list lookup, Python `d[k]` / `k in d`. -/
def lookupA {α : Type} : List (List Char × α) → List Char → Option α
  | [], _ => none
  | (k', v') :: rest, k => if k' = k then some v' else lookupA rest k

/-- Python dict `hourStr -> rawStatus`. -/
abbrev HourMap := List (List Char × List Char)

/-- Python dict `group -> HourMap` (value of one timestamp key). -/
abbrev GroupMap := List (List Char × HourMap)

/-- Python dict `timestampStr -> GroupMap` (the `data` field). -/
abbrev DataMap := List (List Char × GroupMap)

/-- Python dict `date -> (timeRange -> label)` (the `days` of one group). -/
abbrev DayMap := List (List Char × List (List Char × List Char))

instance : DecidableEq DataMap :=
  @List.hasDecEq _ (@instDecidableEqProd _ _ inferInstance inferInstance)

instance : DecidableEq (List (List Char × DayMap)) :=
  @List.hasDecEq _ (@instDecidableEqProd _ _ inferInstance inferInstance)

/-- The decoded fact document, viewed through the two fields the program
reads: `fact_data.get("update", ...)` and `fact_data["data"]`. -/
structure FactDoc where
  update? : Option (List Char)
  data? : Option DataMap
deriving DecidableEq, Repr

/-- The empty JSON object `\x7b\x7d` viewed as a `FactDoc`: no `update`, no
`data` field.  This is the `preset_data = \x7b\x7d` default of line 77. -/
def emptyFactDoc : FactDoc := ⟨none, none⟩

/-- Result dict of `parse_schedule` (lines 90-94). -/
structure ParseResult where
  fact : FactDoc
  preset : FactDoc
  fetched_at : List Char
deriving DecidableEq, Repr

/-- Python `int(s)` on a nonnegative decimal digit string (the only shape an
hour key takes in the data). -/
def parseNat (s : List Char) : Nat := s.foldl (fun a c => a * 10 + (c.toNat - 48)) 0

/-- Python `f"\x7bn:02d\x7d"` for a nonnegative `n`: the decimal digits,
zero-padded on the left to width two. -/
def pad2 (n : Nat) : List Char :=
  if n < 10 then '0' :: Nat.toDigits 10 n else Nat.toDigits 10 n

/-- The time-range label of line 113, `f"\x7bhour-1:02d\x7d:00-\x7bhour:02d\x7d:00"`,
for hours in the expected domain 1-24 (where Python's `hour - 1` agrees with
truncated subtraction). -/
def time_range (hour : Nat) : List Char :=
  pad2 (hour - 1) ++ ":00-".toList ++ pad2 hour ++ ":00".toList

/-- Status normalization, lines 116-127. -/
def normalize_status (status : List Char) : List Char :=
  if status = "yes".toList then "light_on".toList
  else if status = "no".toList then "light_off".toList
  else if status = "first".toList then "off_first_30min".toList
  else if status = "second".toList then "off_second_30min".toList
  else if containsSub status "maybe".toList then "possible_outage".toList
  else status

/-- Result dict of `format_schedule_for_group` (line 99). -/
structure GroupSchedule where
  group : List Char
  days : DayMap
deriving DecidableEq, Repr

/-- Body of the loop over `fact_data["data"].items()` (lines 104-129) for one
`(timestamp, groups_data)` entry: skip when the group is absent, otherwise
reset `result["days"][date]` to `\x7b\x7d` and fill it hour by hour. -/
def dayStep (dateOf : List Char → List Char) (group : List Char)
    (days : DayMap) (e : List Char × GroupMap) : DayMap :=
  let date := dateOf e.1
  match lookupA e.2 group with
  | none => days
  | some hours_data =>
    hours_data.foldl
      (fun ds h =>
        setA ds date
          (setA ((lookupA ds date).getD [])
            (time_range (parseNat h.1)) (normalize_status h.2)))
      (setA days date [])

/-- `format_schedule_for_group` (lines 97-131).  `dateOf` stands for
`datetime.fromtimestamp(int(ts)).strftime("%Y-%m-%d")`, a host-local-time
conversion of the timestamp key. -/
def format_schedule_for_group (dateOf : List Char → List Char)
    (fact_data : FactDoc) (group : List Char) : GroupSchedule :=
  match fact_data.data? with
  | none => ⟨group, []⟩
  | some data => ⟨group, data.foldl (dayStep dateOf group) []⟩

/-- The configured group list (lines 27-28). -/
def GROUPS_TO_PARSE : List (List Char) :=
  ["GPV1.1".toList, "GPV1.2".toList, "GPV2.1".toList, "GPV2.2".toList,
   "GPV3.1".toList, "GPV3.2".toList, "GPV4.1".toList, "GPV4.2".toList,
   "GPV5.1".toList, "GPV5.2".toList, "GPV6.1".toList, "GPV6.2".toList]

/-- The per-group assembly loop of `main` (lines 150-153): a group enters
`output["groups"]` only when its formatted `days` dict is nonempty. -/
def build_groups (dateOf : List Char → List Char) (fact : FactDoc)
    (gs : List (List Char)) : List (List Char × DayMap) :=
  gs.foldl
    (fun out group =>
      let formatted := format_schedule_for_group dateOf fact group
      if formatted.days = [] then out else setA out group formatted.days)
    []

/-- The content-plausibility checks of `fetch_dtek_page` (lines 38-45) on an
abstract response `(status, body)`: non-200 raises an HTTP error, then a body
shorter than 1000 characters or lacking the sentinel raises the protection
error. -/
def fetch_check (status : Nat) (body : List Char) : Except RunError (List Char) :=
  if status ≠ 200 then .error (.httpError status)
  else if body.length < 1000 ∨ containsSub body sentinel = false then
    .error .protectionDetected
  else .ok body

/-- `parse_schedule` (lines 48-94).  `decode` stands for `json.loads` viewed
through the fields the program later reads (`none` = `JSONDecodeError`),
`now` for `datetime.now().isoformat()`.  The required fact block is decoded
first; a preset extraction failure leaves `preset_data = \x7b\x7d`, but a decode
failure of a successfully extracted preset block propagates (line 87 runs
`json.loads` inside the loop). -/
def parse_schedule (decode : List Char → Option FactDoc) (now : List Char)
    (html : List Char) : Except RunError ParseResult :=
  match extract_fact html with
  | .error e => .error e
  | .ok fact_str =>
    match decode fact_str with
    | none => .error .decodeError
    | some fact_data =>
      match extract_preset html with
      | none => .ok ⟨fact_data, emptyFactDoc, now⟩
      | some preset_str =>
        match decode preset_str with
        | none => .error .decodeError
        | some preset_data => .ok ⟨fact_data, preset_data, now⟩

/-- The persisted output document (lines 144-148). -/
structure OutputDoc where
  fetched_at : List Char
  update_time : List Char
  groups : List (List Char × DayMap)
deriving DecidableEq, Repr

/-- `main` (lines 134-186) on an abstract response: fetch checks, parse,
assemble.  The `.ok` payload is exactly the document written to the output
file in step 4; any `.error` reproduces the `except` path, where nothing is
written and `False` is returned. -/
def main_run (status : Nat) (body : List Char)
    (decode : List Char → Option FactDoc) (now : List Char)
    (dateOf : List Char → List Char) (gs : List (List Char)) :
    Except RunError OutputDoc :=
  match fetch_check status body with
  | .error e => .error e
  | .ok html =>
    match parse_schedule decode now html with
    | .error e => .error e
    | .ok raw =>
      .ok ⟨raw.fetched_at, raw.fact.update?.getD "unknown".toList,
           build_groups dateOf raw.fact gs⟩

/-- The boolean success signal `main` returns to its caller. -/
def main_success (status : Nat) (body : List Char)
    (decode : List Char → Option FactDoc) (now : List Char)
    (dateOf : List Char → List Char) (gs : List (List Char)) : Bool :=
  match main_run status body decode now dateOf gs with
  | .ok _ => true
  | .error _ => false

/-- The decimal digit character for `n < 10`. -/
def digitChar (n : Nat) : Char := Char.ofNat (48 + n)

/-- Specification-side two-digit zero-padded rendering of `n < 100`:
tens digit then units digit.  Independent of `pad2`, used to state what
"zero-padded to two digits" means. -/
def twoDigit (n : Nat) : List Char := [digitChar (n / 10), digitChar (n % 10)]

/-- The net effect of the inner hour loop (lines 111-129) on the dict
`result["days"][date]`: fold the hour entries into a fresh dict. -/
def hoursBuild (hours : HourMap) : List (List Char × List Char) :=
  hours.foldl
    (fun acc h => setA acc (time_range (parseNat h.1)) (normalize_status h.2)) []

theorem depthOf_nil : depthOf [] = 0 := rfl

theorem depthOf_cons (c : Char) (s : List Char) :
    depthOf (c :: s) = depthDelta c + depthOf s := by
  simp [depthOf]

/-- The brace loop, entered with positive counter `k` on `l ++ trail` where
`l` closes exactly the `k` open braces (total depth `-k`, every proper
initial segment above `-k`), stops exactly at the end of `l`. -/
theorem braceLoop_closes : ∀ (l trail : List Char) (k : Int) (i : Nat),
    0 < k → depthOf l = -k →
    (∀ n, n < l.length → -k < depthOf (l.take n)) →
    braceLoop (l ++ trail) k i = some (i + l.length) := by
  intro l
  induction l with
  | nil =>
    intro trail k i hk hd _
    rw [depthOf_nil] at hd
    omega
  | cons c cs ih =>
    intro trail k i hk hd hpre
    rw [depthOf_cons] at hd
    rw [List.cons_append]
    by_cases hc : c = lbrace
    · rw [depthDelta, if_pos hc] at hd
      rw [braceLoop, if_pos hc]
      have h2 := ih trail (k + 1) (i + 1) (by omega) (by omega)
        (fun n hn => by
          have hp := hpre (n + 1) (by simpa using hn)
          rw [List.take_succ_cons, depthOf_cons, depthDelta, if_pos hc] at hp
          omega)
      rw [h2]
      congr 1
      simp [List.length_cons]
      omega
    · by_cases hc2 : c = rbrace
      · rw [depthDelta, if_neg hc, if_pos hc2] at hd
        rw [braceLoop, if_neg hc, if_pos hc2]
        by_cases hk1 : k - 1 = 0
        · rw [if_pos hk1]
          have hcs : cs = [] := by
            cases cs with
            | nil => rfl
            | cons d ds =>
              have hp := hpre 1 (by simp)
              rw [show (c :: d :: ds).take 1 = [c] from rfl] at hp
              rw [depthOf_cons, depthOf_nil, depthDelta, if_neg hc, if_pos hc2] at hp
              omega
          subst hcs
          rfl
        · rw [if_neg hk1]
          have h2 := ih trail (k - 1) (i + 1) (by omega) (by omega)
            (fun n hn => by
              have hp := hpre (n + 1) (by simpa using hn)
              rw [List.take_succ_cons, depthOf_cons, depthDelta, if_neg hc, if_pos hc2] at hp
              omega)
          rw [h2]
          congr 1
          simp [List.length_cons]
          omega
      · rw [depthDelta, if_neg hc, if_neg hc2] at hd
        rw [braceLoop, if_neg hc, if_neg hc2]
        have h2 := ih trail k (i + 1) (by omega) (by omega)
          (fun n hn => by
            have hp := hpre (n + 1) (by simpa using hn)
            rw [List.take_succ_cons, depthOf_cons, depthDelta, if_neg hc, if_neg hc2] at hp
            omega)
        rw [h2]
        congr 1
        simp [List.length_cons]
        omega

/-- On a balanced object followed by anything, the brace loop entered with
counter `0` breaks exactly after the object. -/
theorem balanced_braceLoop (obj : List Char) (hb : BalancedCore obj)
    (trail : List Char) (i : Nat) :
    braceLoop (obj ++ trail) 0 i = some (i + obj.length) := by
  obtain ⟨h1, h2, h3⟩ := hb
  cases obj with
  | nil => simp at h1
  | cons c body =>
    have hc : c = lbrace := by simpa using h1
    rw [depthOf_cons, depthDelta, if_pos hc] at h2
    rw [List.cons_append, braceLoop, if_pos hc, zero_add]
    have h4 := braceLoop_closes body trail 1 (i + 1) (by omega) (by omega)
      (fun n hn => by
        cases n with
        | zero => simp [depthOf_nil]
        | succ m =>
          have hp := h3 (m + 2) (by rw [List.length_cons]; omega) (by omega)
          rw [List.take_succ_cons, depthOf_cons, depthDelta, if_pos hc] at hp
          omega)
    rw [h4]
    congr 1
    simp [List.length_cons]
    omega

/-- `findCharAux` skips a block known not to contain the target. -/
theorem findCharAux_skip (pre : List Char) (target : Char) (rest : List Char)
    (i : Nat) (h : ∀ c ∈ pre, c ≠ target) :
    findCharAux (pre ++ target :: rest) target i = some (i + pre.length) := by
  induction pre generalizing i with
  | nil => simp [findCharAux]
  | cons c cs ih =>
    rw [List.cons_append, findCharAux, if_neg (h c (by simp)),
      ih (i + 1) (fun d hd => h d (by simp [hd]))]
    congr 1
    simp [List.length_cons]
    omega

theorem markerHead_len : markerHead.length = 22 := by decide

theorem markerHead_no_lbrace : ∀ c ∈ markerHead, c ≠ lbrace := by decide

/-- C1: for every input text containing the fact marker followed by a
balanced JSON object and arbitrary trailing content, the block extraction
step returns exactly the substring from the first `\x7b` at or after the
marker up to and including the brace that returns the signed depth counter
to zero — independent of the trailing content `trail` and of the object's
nesting depth. -/
theorem extractor_balanced_block (html obj trail : List Char) (p : Nat)
    (hfind : findSub html markerFact = some p)
    (hdec : html.drop p = markerHead ++ (obj ++ trail))
    (hbal : BalancedCore obj) :
    extract_fact html = .ok obj := by
  obtain ⟨h1, -, -⟩ := id hbal
  cases obj with
  | nil => simp at h1
  | cons c body =>
    have hc : c = lbrace := by simpa using h1
    subst hc
    have hfc : findCharFrom html lbrace p = some (p + 22) := by
      rw [findCharFrom, hdec, List.cons_append,
        findCharAux_skip markerHead lbrace (body ++ trail) p markerHead_no_lbrace,
        markerHead_len]
    have hdrop : html.drop (p + 22) = (lbrace :: body) ++ trail := by
      have h22 : List.drop (p + 22) html = List.drop 22 (List.drop p html) := by
        rw [List.drop_drop, Nat.add_comm]
      rw [h22, hdec, ← markerHead_len, List.drop_left]
    unfold extract_fact
    rw [hfind]
    dsimp only
    rw [hfc]
    dsimp only
    rw [hdrop, balanced_braceLoop _ hbal trail (p + 22)]
    dsimp only [Option.getD]
    rw [Nat.add_sub_cancel_left, List.take_left]

/-- Witness for C1: a page with leading junk, a nested object (depth 2) and
trailing garbage; extraction returns exactly the object. -/
theorem extractor_balanced_block_witness :
    extract_fact "xxDisconSchedule.fact = \x7b\x22a\x22:\x7b\x7d\x7d;tail".toList
      = .ok "\x7b\x22a\x22:\x7b\x7d\x7d".toList :=
  extractor_balanced_block _ _ ";tail".toList 2 (by decide) (by decide) (by decide)

/-- C3 (amended): the fact-block extraction step fails, with
`markerNotFound`, exactly when the marker string is absent; when the marker
is present but the depth counter never returns to zero, extraction does not
fail — it returns the empty substring, so the failure surfaces only at the
later JSON-decode step. -/
theorem extract_fact_failure (html : List Char) :
    ((∃ e, extract_fact html = .error e) ↔ findSub html markerFact = none)
  ∧ (findSub html markerFact = none → extract_fact html = .error .markerNotFound)
  ∧ (∀ p j, findSub html markerFact = some p →
      findCharFrom html lbrace p = some j →
      braceLoop (html.drop j) 0 j = none →
      extract_fact html = .ok []) := by
  refine ⟨⟨?_, ?_⟩, ?_, ?_⟩
  · rintro ⟨e, he⟩
    cases hf : findSub html markerFact with
    | none => rfl
    | some p =>
      unfold extract_fact at he
      rw [hf] at he
      dsimp only at he
      cases hfc : findCharFrom html lbrace p with
      | none => rw [hfc] at he; exact absurd he (by simp)
      | some j => rw [hfc] at he; dsimp only at he; exact absurd he (by simp)
  · intro hf
    refine ⟨.markerNotFound, ?_⟩
    unfold extract_fact
    rw [hf]
  · intro hf
    unfold extract_fact
    rw [hf]
  · intro p j hf hfc hb
    unfold extract_fact
    rw [hf]
    dsimp only
    rw [hfc]
    dsimp only
    rw [hb]
    dsimp only [Option.getD]
    rw [Nat.sub_self, List.take_zero]

/-- Witness for C3: with no marker the extraction fails with
`markerNotFound`; with the marker present but no balanced object the
extraction succeeds with the empty substring. -/
theorem extract_fact_failure_witness :
    extract_fact "no marker here".toList = .error .markerNotFound
  ∧ extract_fact "xDisconSchedule.fact = \x7b".toList = .ok [] :=
  ⟨(extract_fact_failure _).2.1 (by decide),
   (extract_fact_failure _).2.2 1 23 (by decide) (by decide) (by decide)⟩

/-- Counterexample to C3 as stated: on a page where the marker is present
but no balanced object follows (`DisconSchedule.fact = \x7b` with the object
never closed), the block-extraction step does not fail with an extraction
error — it returns the empty substring, and the run dies only at JSON
decoding. -/
theorem extract_fact_no_balance_cex :
    extract_fact "DisconSchedule.fact = \x7b".toList = .ok [] := by rfl

theorem startsW_iff (pat l : List Char) : startsW l pat = true ↔ ∃ v, l = pat ++ v := by
  induction pat generalizing l with
  | nil =>
    constructor
    · intro _; exact ⟨l, rfl⟩
    · intro _; cases l <;> rfl
  | cons p ps ih =>
    cases l with
    | nil =>
      constructor
      · intro h; exact absurd h (by rw [startsW]; simp)
      · rintro ⟨v, hv⟩; exact absurd hv (by simp)
    | cons c cs =>
      rw [startsW, Bool.and_eq_true, decide_eq_true_eq, ih]
      constructor
      · rintro ⟨rfl, v, rfl⟩; exact ⟨v, rfl⟩
      · rintro ⟨v, hv⟩
        rw [List.cons_append] at hv
        injection hv with h1 h2
        exact ⟨h1, v, h2⟩

theorem findSubAux_none (pat : List Char) : ∀ (l : List Char) (i : Nat),
    findSubAux l pat i = none → ¬ ∃ u v, l = u ++ pat ++ v := by
  intro l
  induction l with
  | nil =>
    intro i h
    rw [findSubAux] at h
    rintro ⟨u, v, huv⟩
    have hu : u = [] := by cases u with | nil => rfl | cons a as => simp at huv
    subst hu
    have hp : pat = [] := by cases pat with | nil => rfl | cons q qs => simp at huv
    subst hp
    rw [if_pos (by rw [startsW])] at h
    exact absurd h (by simp)
  | cons c cs ih =>
    intro i h
    rw [findSubAux] at h
    by_cases hs : startsW (c :: cs) pat = true
    · rw [if_pos hs] at h; exact absurd h (by simp)
    · rw [if_neg hs] at h
      rintro ⟨u, v, huv⟩
      cases u with
      | nil =>
        rw [List.nil_append] at huv
        exact hs ((startsW_iff pat (c :: cs)).mpr ⟨v, huv⟩)
      | cons a us =>
        rw [List.cons_append, List.cons_append] at huv
        injection huv with h1 h2
        exact ih (i + 1) h ⟨us, v, by rw [h2, List.append_assoc]⟩

theorem findSubAux_some_ex (pat : List Char) : ∀ (l : List Char) (i j : Nat),
    findSubAux l pat i = some j → ∃ u v, l = u ++ pat ++ v := by
  intro l
  induction l with
  | nil =>
    intro i j h
    rw [findSubAux] at h
    by_cases hs : startsW [] pat = true
    · obtain ⟨v, hv⟩ := (startsW_iff pat []).mp hs
      exact ⟨[], v, by rw [List.nil_append]; exact hv⟩
    · rw [if_neg hs] at h; exact absurd h (by simp)
  | cons c cs ih =>
    intro i j h
    rw [findSubAux] at h
    by_cases hs : startsW (c :: cs) pat = true
    · obtain ⟨v, hv⟩ := (startsW_iff pat (c :: cs)).mp hs
      exact ⟨[], v, by simp [hv]⟩
    · rw [if_neg hs] at h
      obtain ⟨u, v, huv⟩ := ih (i + 1) j h
      exact ⟨c :: u, v, by rw [huv]; rfl⟩

/-- Python substring containment agrees with the existence of a
decomposition `l = u ++ pat ++ v`. -/
theorem containsSub_iff (l pat : List Char) :
    containsSub l pat = true ↔ ∃ u v, l = u ++ pat ++ v := by
  unfold containsSub findSub
  constructor
  · intro h
    obtain ⟨j, hj⟩ := Option.isSome_iff_exists.mp h
    exact findSubAux_some_ex pat l 0 j hj
  · intro hex
    cases hs : findSubAux l pat 0 with
    | none => exact absurd hex (findSubAux_none pat l 0 hs)
    | some j => rfl

/-- C4: the status normalizer is total and follows the exact-match table
`yes/no/first/second`, then maps any other code containing the substring
`maybe` anywhere to `possible_outage`, and passes every remaining code
through unchanged. -/
theorem normalize_status_table (code : List Char) :
    (code = "yes".toList → normalize_status code = "light_on".toList)
  ∧ (code = "no".toList → normalize_status code = "light_off".toList)
  ∧ (code = "first".toList → normalize_status code = "off_first_30min".toList)
  ∧ (code = "second".toList → normalize_status code = "off_second_30min".toList)
  ∧ (code ≠ "yes".toList → code ≠ "no".toList → code ≠ "first".toList →
      code ≠ "second".toList → (∃ u v, code = u ++ "maybe".toList ++ v) →
      normalize_status code = "possible_outage".toList)
  ∧ (code ≠ "yes".toList → code ≠ "no".toList → code ≠ "first".toList →
      code ≠ "second".toList → ¬ (∃ u v, code = u ++ "maybe".toList ++ v) →
      normalize_status code = code) := by
  refine ⟨?_, ?_, ?_, ?_, ?_, ?_⟩
  · intro h; subst h; decide
  · intro h; subst h; decide
  · intro h; subst h; decide
  · intro h; subst h; decide
  · intro h1 h2 h3 h4 hex
    unfold normalize_status
    rw [if_neg h1, if_neg h2, if_neg h3, if_neg h4,
      if_pos ((containsSub_iff code "maybe".toList).mpr hex)]
  · intro h1 h2 h3 h4 hnex
    unfold normalize_status
    rw [if_neg h1, if_neg h2, if_neg h3, if_neg h4,
      if_neg (fun hc => hnex ((containsSub_iff code "maybe".toList).mp hc))]

/-- Witness for C4: a `maybe`-infixed variant normalizes to
`possible_outage`, and an unknown code passes through unchanged. -/
theorem normalize_status_table_witness :
    normalize_status "xmaybey".toList = "possible_outage".toList
  ∧ normalize_status "unknown_code".toList = "unknown_code".toList :=
  ⟨(normalize_status_table _).2.2.2.2.1 (by decide) (by decide) (by decide)
      (by decide) ⟨"x".toList, "y".toList, by decide⟩,
   (normalize_status_table _).2.2.2.2.2 (by decide) (by decide) (by decide)
      (by decide) (fun hex => by
        have := (containsSub_iff "unknown_code".toList "maybe".toList).mpr hex
        exact absurd this (by decide))⟩

/-- C8: for every hour index in the domain 1-24, the builder's time-range
label is `(h-1)` zero-padded to two digits, `:00-`, `h` zero-padded to two
digits, `:00`; in particular hour 1 gives `00:00-01:00` and hour 24 gives
`23:00-24:00`. -/
theorem time_range_two_digit :
    (∀ h : Nat, h ≤ 24 → 1 ≤ h →
        time_range h = twoDigit (h - 1) ++ ":00-".toList ++ twoDigit h ++ ":00".toList)
  ∧ time_range 1 = "00:00-01:00".toList
  ∧ time_range 24 = "23:00-24:00".toList :=
  ⟨by decide, by decide, by decide⟩

/-- Witness for C8: the general two-digit statement applied at hour 24. -/
theorem time_range_two_digit_witness :
    time_range 24 = twoDigit 23 ++ ":00-".toList ++ twoDigit 24 ++ ":00".toList :=
  time_range_two_digit.1 24 (by decide) (by decide)

theorem setA_ne_nil {α : Type} (l : List (List Char × α)) (k : List Char) (v : α) :
    setA l k v ≠ [] := by
  cases l with
  | nil => simp [setA]
  | cons p rest =>
    obtain ⟨k', v'⟩ := p
    rw [setA]
    by_cases h : k' = k
    · rw [if_pos h]; simp
    · rw [if_neg h]; simp

theorem lookupA_setA_self {α : Type} (l : List (List Char × α)) (k : List Char) (v : α) :
    lookupA (setA l k v) k = some v := by
  induction l with
  | nil => simp [setA, lookupA]
  | cons p rest ih =>
    obtain ⟨k', v'⟩ := p
    rw [setA]
    by_cases h : k' = k
    · rw [if_pos h, lookupA, if_pos rfl]
    · rw [if_neg h, lookupA, if_neg h, ih]

theorem setA_setA_self {α : Type} (l : List (List Char × α)) (k : List Char) (v w : α) :
    setA (setA l k v) k w = setA l k w := by
  induction l with
  | nil => simp [setA]
  | cons p rest ih =>
    obtain ⟨k', v'⟩ := p
    rw [setA]
    by_cases h : k' = k
    · rw [if_pos h, setA, if_pos rfl, setA, if_pos h]
    · rw [if_neg h, setA, if_neg h, setA, if_neg h, ih]

theorem setA_self_of_lookup {α : Type} (l : List (List Char × α)) (k : List Char) (v : α)
    (h : lookupA l k = some v) : setA l k v = l := by
  induction l with
  | nil => rw [lookupA] at h; exact absurd h (by simp)
  | cons p rest ih =>
    obtain ⟨k', v'⟩ := p
    rw [lookupA] at h
    rw [setA]
    by_cases hk : k' = k
    · rw [if_pos hk] at h
      rw [if_pos hk, hk, Option.some.inj h]
    · rw [if_neg hk] at h
      rw [if_neg hk, ih h]

theorem mem_setA {α : Type} (l : List (List Char × α)) (k : List Char) (v : α)
    (p : List Char × α) (h : p ∈ setA l k v) : p ∈ l ∨ p = (k, v) := by
  induction l with
  | nil => simp [setA] at h; right; exact h
  | cons q rest ih =>
    obtain ⟨k', v'⟩ := q
    rw [setA] at h
    by_cases hk : k' = k
    · rw [if_pos hk] at h
      rcases List.mem_cons.mp h with heq | hin
      · right; exact heq
      · left; exact List.mem_cons_of_mem _ hin
    · rw [if_neg hk] at h
      rcases List.mem_cons.mp h with heq | hin
      · left; rw [heq]; exact List.mem_cons_self _ _
      · rcases ih hin with h1 | h2
        · left; exact List.mem_cons_of_mem _ h1
        · right; exact h2

theorem mem_keys_setA {α : Type} (l : List (List Char × α)) (k : List Char) (v : α)
    (x : List Char) :
    x ∈ (setA l k v).map Prod.fst ↔ x ∈ l.map Prod.fst ∨ x = k := by
  induction l with
  | nil => simp [setA]
  | cons q rest ih =>
    obtain ⟨k', v'⟩ := q
    rw [setA]
    by_cases hk : k' = k
    · rw [if_pos hk]
      subst hk
      simp only [List.map_cons, List.mem_cons]
      tauto
    · rw [if_neg hk]
      simp only [List.map_cons, List.mem_cons, ih]
      tauto

/-- Running the inner hour loop through the `days` dict is the same as
updating the date entry in place, provided the date key is present. -/
theorem hours_fold_set (date : List Char) :
    ∀ (hours : HourMap) (days : DayMap) (m : List (List Char × List Char)),
    lookupA days date = some m →
    hours.foldl
      (fun ds h =>
        setA ds date
          (setA ((lookupA ds date).getD [])
            (time_range (parseNat h.1)) (normalize_status h.2)))
      days
    = setA days date
        (hours.foldl
          (fun acc h => setA acc (time_range (parseNat h.1)) (normalize_status h.2))
          m) := by
  intro hours
  induction hours with
  | nil =>
    intro days m h
    rw [List.foldl_nil, List.foldl_nil, setA_self_of_lookup days date m h]
  | cons hp hs ih =>
    intro days m h
    rw [List.foldl_cons, List.foldl_cons]
    simp only [h, Option.getD_some]
    rw [ih (setA days date (setA m (time_range (parseNat hp.1)) (normalize_status hp.2)))
        (setA m (time_range (parseNat hp.1)) (normalize_status hp.2))
        (lookupA_setA_self days date _),
      setA_setA_self]

/-- One pass of the timestamp loop is an in-place update of the date entry:
skip when the group is absent, otherwise replace `days[date]` with the map
built from this timestamp's hour entries alone (line 109 resets the entry
before the hour loop runs). -/
theorem dayStep_eq (dateOf : List Char → List Char) (group : List Char)
    (days : DayMap) (e : List Char × GroupMap) :
    dayStep dateOf group days e =
      match lookupA e.2 group with
      | none => days
      | some hours => setA days (dateOf e.1) (hoursBuild hours) := by
  unfold dayStep
  cases hl : lookupA e.2 group with
  | none => rfl
  | some hours =>
    dsimp only
    rw [hours_fold_set (dateOf e.1) hours (setA days (dateOf e.1) []) []
        (lookupA_setA_self days (dateOf e.1) []),
      setA_setA_self]
    rfl

theorem hoursFold_ne_nil :
    ∀ (hs : HourMap) (acc : List (List Char × List Char)), acc ≠ [] →
    hs.foldl (fun acc h => setA acc (time_range (parseNat h.1)) (normalize_status h.2)) acc ≠ [] := by
  intro hs
  induction hs with
  | nil => intro acc h; simpa using h
  | cons p ps ih =>
    intro acc h
    rw [List.foldl_cons]
    exact ih _ (setA_ne_nil _ _ _)

theorem hoursBuild_ne_nil (hours : HourMap) (h : hours ≠ []) : hoursBuild hours ≠ [] := by
  cases hours with
  | nil => exact absurd rfl h
  | cons p ps =>
    unfold hoursBuild
    rw [List.foldl_cons]
    exact hoursFold_ne_nil ps _ (setA_ne_nil _ _ _)

/-- Invariant of the timestamp loop: when every hour map the group owns in
the data is nonempty, every day value stays nonempty. -/
theorem days_inv (dateOf : List Char → List Char) (group : List Char) :
    ∀ (data : DataMap) (days : DayMap),
    (∀ d m, (d, m) ∈ days → m ≠ []) →
    (∀ ts gd hours, (ts, gd) ∈ data → lookupA gd group = some hours → hours ≠ []) →
    ∀ d m, (d, m) ∈ data.foldl (dayStep dateOf group) days → m ≠ [] := by
  intro data
  induction data with
  | nil => intro days hinv _ d m hm; exact hinv d m hm
  | cons e rest ih =>
    intro days hinv hdata d m hm
    rw [List.foldl_cons] at hm
    refine ih (dayStep dateOf group days e) ?_
      (fun ts gd hours hmem hl => hdata ts gd hours (List.mem_cons_of_mem _ hmem) hl)
      d m hm
    intro d' m' hm'
    rw [dayStep_eq] at hm'
    cases hl : lookupA e.2 group with
    | none => rw [hl] at hm'; exact hinv d' m' hm'
    | some hours =>
      rw [hl] at hm'
      dsimp only at hm'
      rcases mem_setA _ _ _ _ hm' with hin | heq
      · exact hinv d' m' hin
      · have hne : hours ≠ [] := hdata e.1 e.2 hours (by simp) hl
        have hmv : m' = hoursBuild hours := by
          have := congrArg Prod.snd heq
          simpa using this
        rw [hmv]
        exact hoursBuild_ne_nil hours hne

/-- Membership in the keys of the group-assembly fold. -/
theorem build_groups_mem (dateOf : List Char → List Char) (fact : FactDoc) :
    ∀ (gs : List (List Char)) (init : List (List Char × DayMap)) (g : List Char),
    g ∈ (gs.foldl
          (fun out group =>
            let formatted := format_schedule_for_group dateOf fact group
            if formatted.days = [] then out else setA out group formatted.days)
          init).map Prod.fst
    ↔ g ∈ init.map Prod.fst ∨
        (g ∈ gs ∧ (format_schedule_for_group dateOf fact g).days ≠ []) := by
  intro gs
  induction gs with
  | nil => intro init g; simp
  | cons g' rest ih =>
    intro init g
    rw [List.foldl_cons, ih]
    dsimp only
    by_cases hd : (format_schedule_for_group dateOf fact g').days = []
    · rw [if_pos hd]
      constructor
      · rintro (h | ⟨hgs, hp⟩)
        · exact Or.inl h
        · exact Or.inr ⟨List.mem_cons_of_mem _ hgs, hp⟩
      · rintro (h | ⟨hgs, hp⟩)
        · exact Or.inl h
        · rcases List.mem_cons.mp hgs with rfl | hin
          · exact absurd hd hp
          · exact Or.inr ⟨hin, hp⟩
    · rw [if_neg hd, mem_keys_setA]
      constructor
      · rintro ((h | rfl) | ⟨hgs, hp⟩)
        · exact Or.inl h
        · exact Or.inr ⟨List.mem_cons_self _ _, hd⟩
        · exact Or.inr ⟨List.mem_cons_of_mem _ hgs, hp⟩
      · rintro (h | ⟨hgs, hp⟩)
        · exact Or.inl (Or.inl h)
        · rcases List.mem_cons.mp hgs with rfl | hin
          · exact Or.inl (Or.inr rfl)
          · exact Or.inr ⟨hin, hp⟩

/-- C2 (amended): provided every hour map attached to the group in the fact
document's data is nonempty, every date key present in the builder output
for that group maps to at least one time-range entry; and unconditionally, a
group appears as a key of the output groups mapping exactly when it is
configured and its resulting day map is nonempty — so a group with an empty
day map never appears, not even mapped to an empty object. -/
theorem builder_group_day_invariant (dateOf : List Char → List Char)
    (fact : FactDoc) (gs : List (List Char)) (group : List Char) :
    ((∀ data, fact.data? = some data →
        ∀ ts gd hours, (ts, gd) ∈ data → lookupA gd group = some hours → hours ≠ []) →
      ∀ d m, (d, m) ∈ (format_schedule_for_group dateOf fact group).days → m ≠ [])
  ∧ (group ∈ (build_groups dateOf fact gs).map Prod.fst ↔
      group ∈ gs ∧ (format_schedule_for_group dateOf fact group).days ≠ []) := by
  constructor
  · intro hd d m hm
    unfold format_schedule_for_group at hm
    cases hdat : fact.data? with
    | none =>
      rw [hdat] at hm
      exact absurd hm (List.not_mem_nil _)
    | some data =>
      rw [hdat] at hm
      exact days_inv dateOf group data [] (by simp) (hd data hdat) d m hm
  · unfold build_groups
    rw [build_groups_mem]
    simp

/-- Counterexample to C2 as stated: a fact document whose only timestamp
gives the group an empty hour map.  The group then has a nonempty day map,
so it appears in the output groups, with its date key mapped to the empty
map — a date key with zero time-range entries. -/
theorem builder_empty_hours_cex :
    lookupA (build_groups (fun _ => "2023-11-14".toList)
        ⟨none, some [("1700000000".toList, [("GPV1.1".toList, [])])]⟩
        ["GPV1.1".toList]) "GPV1.1".toList
      = some [("2023-11-14".toList, [])] := by rfl

/-- Witness for C2: a configured group with a nonempty hour map appears in
the output, and the nonemptiness invariant holds for its produced day. -/
theorem builder_group_day_invariant_witness :
    "GPV7.1".toList ∈ (build_groups (fun _ => "2024-01-02".toList)
        ⟨none, some [("1704150000".toList,
          [("GPV7.1".toList, [("1".toList, "yes".toList)])])]⟩
        ["GPV7.1".toList]).map Prod.fst
  ∧ ([("00:00-01:00".toList, "light_on".toList)] : List (List Char × List Char)) ≠ [] := by
  refine ⟨?_, ?_⟩
  · exact (builder_group_day_invariant (fun _ => "2024-01-02".toList)
      ⟨none, some [("1704150000".toList,
        [("GPV7.1".toList, [("1".toList, "yes".toList)])])]⟩
      ["GPV7.1".toList] "GPV7.1".toList).2.mpr ⟨by decide, by decide⟩
  · refine (builder_group_day_invariant (fun _ => "2024-01-02".toList)
      ⟨none, some [("1704150000".toList,
        [("GPV7.1".toList, [("1".toList, "yes".toList)])])]⟩
      ["GPV7.1".toList] "GPV7.1".toList).1 ?_ "2024-01-02".toList _ (by decide)
    intro data hdata ts gd hours hmem hl
    have hd : [("1704150000".toList, [("GPV7.1".toList, [("1".toList, "yes".toList)])])] = data :=
      Option.some.inj hdata
    subst hd
    simp only [List.mem_singleton] at hmem
    injection hmem with h1 h2
    subst h2
    have hh := Option.some.inj hl
    rw [← hh]
    decide

/-- C9: on a fact document with no `data` field, the builder returns an
empty day mapping for every group, and the overall groups mapping is empty;
no error is raised (the functions are total). -/
theorem builder_no_data (dateOf : List Char → List Char) (fact : FactDoc)
    (g : List Char) (gs : List (List Char)) (h : fact.data? = none) :
    format_schedule_for_group dateOf fact g = ⟨g, []⟩
  ∧ build_groups dateOf fact gs = [] := by
  have hf : ∀ g', format_schedule_for_group dateOf fact g' = ⟨g', []⟩ := by
    intro g'
    unfold format_schedule_for_group
    rw [h]
  refine ⟨hf g, ?_⟩
  unfold build_groups
  induction gs with
  | nil => rfl
  | cons g' rest ih =>
    rw [List.foldl_cons]
    have hstep :
        (let formatted := format_schedule_for_group dateOf fact g'
         if formatted.days = [] then ([] : List (List Char × DayMap))
         else setA [] g' formatted.days) = [] := by
      rw [hf g']
      rfl
    rw [hstep]
    exact ih

/-- Witness for C9. -/
theorem builder_no_data_witness :
    format_schedule_for_group (fun _ => "x".toList) ⟨some "12:00".toList, none⟩
        "GPV2.9".toList = ⟨"GPV2.9".toList, []⟩
  ∧ build_groups (fun _ => "x".toList) ⟨some "12:00".toList, none⟩
        ["GPV2.9".toList] = [] :=
  builder_no_data (fun _ => "x".toList) ⟨some "12:00".toList, none⟩
    "GPV2.9".toList ["GPV2.9".toList] rfl

/-- C10: when two distinct timestamp keys both contain the group and both
convert to the same calendar date, the builder reinitializes the date entry
at the later timestamp, so the output contains only the hour entries built
from the last timestamp in iteration order; the earlier timestamp's entries
are discarded, not merged. -/
theorem builder_same_date_last_wins (dateOf : List Char → List Char)
    (ts1 ts2 : List Char) (gd1 gd2 : GroupMap) (h1 h2 : HourMap)
    (group : List Char) (u : Option (List Char))
    (_hts : ts1 ≠ ts2)
    (hl1 : lookupA gd1 group = some h1)
    (hl2 : lookupA gd2 group = some h2)
    (hdate : dateOf ts1 = dateOf ts2) :
    format_schedule_for_group dateOf ⟨u, some [(ts1, gd1), (ts2, gd2)]⟩ group
      = ⟨group, [(dateOf ts2, hoursBuild h2)]⟩ := by
  unfold format_schedule_for_group
  dsimp only
  rw [List.foldl_cons, List.foldl_cons, List.foldl_nil, dayStep_eq, dayStep_eq]
  dsimp only
  rw [hl1, hl2]
  dsimp only
  rw [hdate]
  rw [show setA ([] : DayMap) (dateOf ts2) (hoursBuild h1) = [(dateOf ts2, hoursBuild h1)] from rfl]
  rw [show setA [(dateOf ts2, hoursBuild h1)] (dateOf ts2) (hoursBuild h2)
      = [(dateOf ts2, hoursBuild h2)] from by rw [setA, if_pos rfl]]

/-- Witness for C10: two timestamps on the same date; only the second
timestamp's hour entries survive. -/
theorem builder_same_date_last_wins_witness :
    format_schedule_for_group (fun _ => "2024-05-05".toList)
      ⟨none, some [("100".toList, [("GPV9.1".toList, [("1".toList, "yes".toList)])]),
                   ("200".toList, [("GPV9.1".toList, [("2".toList, "no".toList)])])]⟩
      "GPV9.1".toList
    = ⟨"GPV9.1".toList, [("2024-05-05".toList, hoursBuild [("2".toList, "no".toList)])]⟩ :=
  builder_same_date_last_wins (fun _ => "2024-05-05".toList)
    "100".toList "200".toList
    [("GPV9.1".toList, [("1".toList, "yes".toList)])]
    [("GPV9.1".toList, [("2".toList, "no".toList)])]
    [("1".toList, "yes".toList)] [("2".toList, "no".toList)]
    "GPV9.1".toList none (by decide) rfl rfl rfl

/-- C5: on every page where the preset block cannot be successfully
extracted, `parse_schedule` uses the empty object for `preset` and the run's
outcome is decided by the fact path alone — a preset extraction failure
never propagates as an error. -/
theorem preset_failure_recovered (decode : List Char → Option FactDoc)
    (now html : List Char) (h : extract_preset html = none) :
    (∀ s f, extract_fact html = .ok s → decode s = some f →
        parse_schedule decode now html = .ok ⟨f, emptyFactDoc, now⟩)
  ∧ (∀ e, parse_schedule decode now html = .error e →
        extract_fact html = .error e ∨
          (e = .decodeError ∧ ∃ s, extract_fact html = .ok s ∧ decode s = none)) := by
  constructor
  · intro s f hs hf
    unfold parse_schedule
    rw [hs]
    dsimp only
    rw [hf]
    dsimp only
    rw [h]
  · intro e he
    unfold parse_schedule at he
    cases hx : extract_fact html with
    | error e' =>
      rw [hx] at he
      dsimp only at he
      left
      have hee : e' = e := Except.error.inj he
      rw [hee]
    | ok s =>
      rw [hx] at he
      dsimp only at he
      cases hdec : decode s with
      | none =>
        rw [hdec] at he
        dsimp only at he
        right
        exact ⟨(Except.error.inj he).symm, s, rfl, hdec⟩
      | some f =>
        rw [hdec] at he
        dsimp only at he
        rw [h] at he
        dsimp only at he
        exact absurd he (by simp)

/-- Witness for C5: a page with a fact block and no preset marker parses
successfully with the empty preset object. -/
theorem preset_failure_recovered_witness :
    parse_schedule (fun _ => some ⟨some "09:00".toList, none⟩) "T0".toList
        "zzDisconSchedule.fact = \x7b\x7d zz".toList
      = .ok ⟨⟨some "09:00".toList, none⟩, emptyFactDoc, "T0".toList⟩ :=
  (preset_failure_recovered (fun _ => some ⟨some "09:00".toList, none⟩)
      "T0".toList "zzDisconSchedule.fact = \x7b\x7d zz".toList (by decide)).1
    "\x7b\x7d".toList ⟨some "09:00".toList, none⟩ rfl rfl

/-- C6: with a 200 status, a body shorter than 1000 characters or lacking
the sentinel substring fails the fetch step with `protectionDetected`; in
particular a body that is both short and missing the sentinel makes the
whole pipeline stop with `protectionDetected` before any extraction is
attempted. -/
theorem fetch_protection_guard (status : Nat) (body : List Char)
    (decode : List Char → Option FactDoc) (now : List Char)
    (dateOf : List Char → List Char) (gs : List (List Char)) :
    (status = 200 → (body.length < 1000 ∨ containsSub body sentinel = false) →
        fetch_check status body = .error .protectionDetected)
  ∧ (body.length < 1000 → containsSub body sentinel = false →
        main_run 200 body decode now dateOf gs = .error .protectionDetected) := by
  have hmain : ∀ st, st = 200 → (body.length < 1000 ∨ containsSub body sentinel = false) →
      fetch_check st body = .error .protectionDetected := by
    intro st hst hcond
    subst hst
    unfold fetch_check
    rw [if_neg (by simp), if_pos hcond]
  refine ⟨hmain status, ?_⟩
  intro hshort hsent
  unfold main_run
  rw [hmain 200 rfl (Or.inl hshort)]

/-- Witness for C6: a tiny body without the sentinel. -/
theorem fetch_protection_guard_witness :
    fetch_check 200 "tiny".toList = .error .protectionDetected
  ∧ main_run 200 "tiny".toList (fun _ => some emptyFactDoc) "T1".toList
      (fun _ => "d".toList) [] = .error .protectionDetected :=
  ⟨(fetch_protection_guard 200 "tiny".toList (fun _ => some emptyFactDoc)
      "T1".toList (fun _ => "d".toList) []).1 rfl (Or.inl (by decide)),
   (fetch_protection_guard 200 "tiny".toList (fun _ => some emptyFactDoc)
      "T1".toList (fun _ => "d".toList) []).2 (by decide) (by decide)⟩

/-- C7: a failure of the fetch step or of the parse step (required
extraction or JSON decode) aborts the run with that error and a false
success signal, producing no output document; conversely an output document
is produced only when fetch and parse both succeeded, and it is then the
fully assembled document. -/
theorem pipeline_all_or_nothing (status : Nat) (body : List Char)
    (decode : List Char → Option FactDoc) (now : List Char)
    (dateOf : List Char → List Char) (gs : List (List Char)) :
    (∀ e, fetch_check status body = .error e →
        main_run status body decode now dateOf gs = .error e)
  ∧ (∀ html e, fetch_check status body = .ok html →
        parse_schedule decode now html = .error e →
        main_run status body decode now dateOf gs = .error e)
  ∧ (∀ e, main_run status body decode now dateOf gs = .error e →
        main_success status body decode now dateOf gs = false)
  ∧ (∀ doc, main_run status body decode now dateOf gs = .ok doc →
        ∃ html raw, fetch_check status body = .ok html ∧
          parse_schedule decode now html = .ok raw ∧
          doc = ⟨raw.fetched_at, raw.fact.update?.getD "unknown".toList,
                 build_groups dateOf raw.fact gs⟩ ∧
          main_success status body decode now dateOf gs = true) := by
  refine ⟨?_, ?_, ?_, ?_⟩
  · intro e he
    unfold main_run
    rw [he]
  · intro html e hf hp
    unfold main_run
    rw [hf]
    dsimp only
    rw [hp]
  · intro e he
    unfold main_success
    rw [he]
  · intro doc hdoc
    unfold main_run at hdoc
    cases hf : fetch_check status body with
    | error e =>
      rw [hf] at hdoc
      exact absurd hdoc (by simp)
    | ok html =>
      rw [hf] at hdoc
      dsimp only at hdoc
      cases hp : parse_schedule decode now html with
      | error e =>
        rw [hp] at hdoc
        exact absurd hdoc (by simp)
      | ok raw =>
        rw [hp] at hdoc
        dsimp only at hdoc
        refine ⟨html, raw, rfl, hp, (Except.ok.inj hdoc).symm, ?_⟩
        unfold main_success main_run
        rw [hf]
        dsimp only
        rw [hp]

/-- Witness for C7: a non-200 fetch aborts the run with the HTTP error and
a false success signal. -/
theorem pipeline_all_or_nothing_witness :
    main_run 503 "irrelevant".toList (fun _ => some emptyFactDoc) "T2".toList
      (fun _ => "d".toList) [] = .error (.httpError 503)
  ∧ main_success 503 "irrelevant".toList (fun _ => some emptyFactDoc) "T2".toList
      (fun _ => "d".toList) [] = false :=
  ⟨(pipeline_all_or_nothing 503 "irrelevant".toList (fun _ => some emptyFactDoc)
      "T2".toList (fun _ => "d".toList) []).1 (.httpError 503) rfl,
   (pipeline_all_or_nothing 503 "irrelevant".toList (fun _ => some emptyFactDoc)
      "T2".toList (fun _ => "d".toList) []).2.2.1 (.httpError 503)
     ((pipeline_all_or_nothing 503 "irrelevant".toList (fun _ => some emptyFactDoc)
        "T2".toList (fun _ => "d".toList) []).1 (.httpError 503) rfl)⟩
